import Mathlib

/-!
Shallow embedding of the `wordle_solver` repository (package `src/wordle_solver/`:
`constants.py` and `solver.py`), together with theorems settling the claims about
its specification.

Words and feedback strings are embedded as `List Char`; Python `str` indexing
`word[idx]` is embedded as `List.getD` with a NUL default (all words handled by the
program have exactly 5 letters, so the default is never consulted in the claims'
scope). Python exceptions are embedded as `Except` / error-code results, and the
in-place mutation of `WordleSolver` is embedded as explicit state passing.
-/

/-- NUL character used as the out-of-range default for embedded string indexing. -/
def nulChar : Char := Char.ofNat 0

/-- A word: Python `str`, embedded as a list of characters. -/
abbrev Word := List Char

/-- The three feedback judgements of `constants.py`: `CORRECT` (symbol `Y`),
`IN_WORD` (symbol `I`), `INCORRECT` (symbol `N`). The codebase only ever
constructs these three `AnswerPart` values. -/
inductive AnswerPart where
  | correct
  | inWord
  | incorrect
deriving DecidableEq, Repr

/-- Terminal input symbol of each `AnswerPart` (`constants.py`). -/
def AnswerPart.symbol : AnswerPart → Char
  | .correct => 'Y'
  | .inWord => 'I'
  | .incorrect => 'N'

/-- An `Answer` (`constants.py`): the feedback for a single guess, a list of
`AnswerPart`s (exactly 5 of them for every value the program builds). -/
structure Answer where
  parts : List AnswerPart
deriving DecidableEq, Repr

/-- Error raised by `Answer.from_string` (`constants.py` raises `ValueError` with
one of two messages; the two constructors mirror the two messages). -/
inductive ParseError where
  | invalidLength
  | invalidSymbol (c : Char)
deriving DecidableEq, Repr

/-- Python `str.upper()` restricted to the ASCII range handled by the program. -/
def pyUpper (s : List Char) : List Char := s.map Char.toUpper

/-- Whitespace characters removed by Python `str.strip()`. -/
def pyIsSpace (c : Char) : Bool :=
  c = ' ' || c = '\t' || c = '\n' || c = '\r' || c = '\x0b' || c = '\x0c'

/-- Python `str.strip()`: drop leading and trailing whitespace. -/
def pyStrip (s : List Char) : List Char :=
  ((s.dropWhile pyIsSpace).reverse.dropWhile pyIsSpace).reverse

/-- One character of feedback input: the `if letter == CORRECT.symbol / IN_WORD /
INCORRECT` chain inside `Answer.from_string`. `none` corresponds to the
`ValueError` branch. -/
def symbolToPart (c : Char) : Option AnswerPart :=
  if c = 'Y' then some AnswerPart.correct
  else if c = 'I' then some AnswerPart.inWord
  else if c = 'N' then some AnswerPart.incorrect
  else none

/-- The letter loop of `Answer.from_string`: build the parts list left to right,
failing at the first letter outside the symbol alphabet. -/
def partsFromChars : List Char → Except ParseError (List AnswerPart)
  | [] => Except.ok []
  | c :: cs =>
    match symbolToPart c with
    | some p =>
      match partsFromChars cs with
      | Except.ok rest => Except.ok (p :: rest)
      | Except.error e => Except.error e
    | none => Except.error (ParseError.invalidSymbol c)

/-- `Answer.from_string` (`constants.py`): normalise the input with
`.upper().strip()`, require length 5, then map each character to its part. -/
def Answer.from_string (input : List Char) : Except ParseError Answer :=
  let s := pyStrip (pyUpper input)
  if s.length ≠ 5 then Except.error ParseError.invalidLength
  else
    match partsFromChars s with
    | Except.ok parts => Except.ok ⟨parts⟩
    | Except.error e => Except.error e

/-- State of a `WordleSolver` (`solver.py`). The module `words` (providing
`words.ALL_WORDS`) is not part of the sources; per the specification the global
word list is embedded as a caller-supplied immutable dictionary, carried here in
the field `allWords`. -/
structure Solver where
  allWords : List Word
  words : List Word
  guesses : List Word
  answers : List Answer
  hard_mode : Bool
deriving DecidableEq, Repr

/-- Error raised by `WordleSolver.__init__` / `WordleSolver.add_answer`
(`solver.py` raises `ValueError` with one of three messages; the constructors
mirror the messages). -/
inductive SolverError where
  | wrongLength
  | invalidWord
  | countMismatch
deriving DecidableEq, Repr

/-- `WordleSolver.is_complete`. -/
def is_complete (s : Solver) : Bool :=
  decide (s.words.length ≤ 1) || decide (s.guesses.length = 6)

/-- `WordleSolver.valid_guess`. -/
def valid_guess (s : Solver) (word : Word) : Bool :=
  if word ∈ s.guesses then false
  else if s.hard_mode then decide (word ∈ s.words)
  else decide (word ∈ s.allWords)

/-- The position loop of `WordleSolver.filter_words`: walk
`zip(guess, answer.parts)` with the running index, switching `match` to `False`
whenever a constraint is violated. -/
def matchLoop (word : Word) : List Char → List AnswerPart → Nat → Bool → Bool
  | [], _, _, m => m
  | _ :: _, [], _, m => m
  | letter :: gs, part :: ps, idx, m =>
    let m := if part = AnswerPart.correct ∧ word.getD idx nulChar ≠ letter then false else m
    let m := if part = AnswerPart.inWord ∧
        (word.getD idx nulChar = letter ∨ letter ∉ word) then false else m
    let m := if part = AnswerPart.incorrect ∧ letter ∈ word then false else m
    matchLoop word gs ps (idx + 1) m

/-- The per-word predicate of `WordleSolver.filter_words`: `match` starts as
`word != guess` and every position of the feedback may clear it. -/
def word_matches (word guess : Word) (answer : Answer) : Bool :=
  matchLoop word guess answer.parts 0 (decide (word ≠ guess))

/-- `WordleSolver.filter_words`, parameterised by the current words list the
method reads from `self.words`. -/
def filter_words (words : List Word) (guess : Word) (answer : Answer) : List Word :=
  words.filter (fun w => word_matches w guess answer)

/-- `WordleSolver.add_answer`: validate, then append the guess and answer and
replace the pool by the filtered pool. -/
def add_answer (s : Solver) (guess : Word) (answer : Answer) : Except SolverError Solver :=
  if guess.length ≠ 5 then Except.error SolverError.wrongLength
  else if ¬ valid_guess s guess then Except.error SolverError.invalidWord
  else Except.ok
    { s with
      guesses := s.guesses ++ [guess]
      answers := s.answers ++ [answer]
      words := filter_words s.words guess answer }

/-- `WordleSolver.add_answer` read as a state trace: the validation `raise`s come
first, each field mutation is applied in source order afterwards, and an
exception surfaces together with the state as it stood at the raise point. -/
def add_answer_run (s : Solver) (guess : Word) (answer : Answer) :
    Solver × Option SolverError :=
  if guess.length ≠ 5 then (s, some SolverError.wrongLength)
  else if ¬ valid_guess s guess then (s, some SolverError.invalidWord)
  else
    let s1 := { s with guesses := s.guesses ++ [guess] }
    let s2 := { s1 with answers := s1.answers ++ [answer] }
    let s3 := { s2 with words := filter_words s2.words guess answer }
    (s3, none)

/-- The replay loop of `WordleSolver.__init__`: each historical pair goes through
`add_answer` in order, and the first exception aborts construction. -/
def replay (s : Solver) : List (Word × Answer) → Except SolverError Solver
  | [] => Except.ok s
  | (g, a) :: rest =>
    match add_answer s g a with
    | Except.ok s' => replay s' rest
    | Except.error e => Except.error e

/-- `WordleSolver.__init__`: start from a copy of the full dictionary, fail when
the guess and answer counts differ (before replaying any pair), otherwise replay
every historical pair through `add_answer`. -/
def initSolver (allWords : List Word) (guesses : List Word) (answers : List Answer)
    (hard_mode : Bool) : Except SolverError Solver :=
  if answers.length ≠ guesses.length then Except.error SolverError.countMismatch
  else replay ⟨allWords, allWords, [], [], hard_mode⟩ (guesses.zip answers)

/-- Reference Wordle judgement, used to state soundness (claim C2): greens are
exact position matches; the remaining answer letters form a budget that yellow
judgements consume left to right; everything else is grey. -/
def wordleParts (answer guess : Word) : List AnswerPart :=
  let pairs := answer.zip guess
  let leftover := pairs.filterMap (fun p => if p.1 = p.2 then none else some p.1)
  (pairs.foldl
    (fun (acc : List AnswerPart × List Char) (p : Char × Char) =>
      if p.1 = p.2 then (acc.1 ++ [AnswerPart.correct], acc.2)
      else if p.2 ∈ acc.2 then (acc.1 ++ [AnswerPart.inWord], acc.2.erase p.2)
      else (acc.1 ++ [AnswerPart.incorrect], acc.2))
    ([], leftover)).1

/-- The position loop inside `WordleSolver._score_words`: running score, running
index, and the list `letters` of guess letters already processed. A duplicate
guess letter subtracts 1; an exact position match assigns the score to 5; a
letter present elsewhere in the answer adds 3; anything else adds 1. -/
def scoreLoop (answer : Word) : List Char → Nat → List Char → Int → Int
  | [], _, _, score => score
  | letter :: rest, idx, letters, score =>
    let score := if letter ∈ letters then score + (-1) else score
    let score :=
      if answer.getD idx nulChar = letter then (5 : Int)
      else if letter ∈ answer then score + 3
      else score + 1
    scoreLoop answer rest (idx + 1) (letters ++ [letter]) score

/-- The (answer, guess) pairwise score of `WordleSolver._score_words`. -/
def score_pair (answer guess : Word) : Int :=
  scoreLoop answer guess 0 [] 0

/-- Python `dict` update `scores.setdefault(guess, 0); scores[guess] += score`:
the first entry for a key keeps its position, a new key is appended at the end
(insertion order, as Python dicts preserve it). -/
def dictAdd (d : List (Word × Int)) (k : Word) (v : Int) : List (Word × Int) :=
  match d with
  | [] => [(k, v)]
  | (k', v') :: rest =>
    if k' = k then (k', v' + v) :: rest else (k', v') :: dictAdd rest k v

/-- Python `dict` lookup on the association list of `dictAdd`. -/
def dictGet (d : List (Word × Int)) (k : Word) : Option Int :=
  match d with
  | [] => none
  | (k', v') :: rest => if k' = k then some v' else dictGet rest k

/-- `WordleSolver._score_words`: the guess space is the pool in hard mode and the
full dictionary otherwise; every (answer, guess) pairwise score is accumulated
into the guess's dictionary entry. -/
def score_words (s : Solver) : List (Word × Int) :=
  let guesses := if s.hard_mode then s.words else s.allWords
  let answers := s.words
  answers.foldl
    (fun scores answer =>
      guesses.foldl
        (fun scores guess => dictAdd scores guess (score_pair answer guess))
        scores)
    []

/-- Stable insertion of one scored word into a list sorted by descending score:
the new element goes after every element whose score is at least its own. -/
def insertDesc (x : Word × Int) : List (Word × Int) → List (Word × Int)
  | [] => [x]
  | y :: ys => if y.2 < x.2 then x :: y :: ys else y :: insertDesc x ys

/-- Python `list.sort(key=..., reverse=True)`: a stable sort by descending
score, embedded as left-to-right stable insertion. -/
def sortDesc (l : List (Word × Int)) : List (Word × Int) :=
  l.foldl (fun acc x => insertDesc x acc) []

/-- `WordleSolver.next_word`: sort the scored words by descending score and take
the first (Python indexes `word_scores[0]`; the empty case, on which Python
would raise `IndexError`, is given a dummy default here). -/
def next_word (s : Solver) : Word :=
  let word_scores := score_words s
  (sortDesc word_scores).headD ([], 0) |>.1

/-- Folding `add_answer` over a sequence of record operations; a failing record
leaves the state unchanged (theorem for claim C7) and the run continues. -/
def run_game (s : Solver) : List (Word × Answer) → Solver
  | [] => s
  | (g, a) :: rest =>
    match add_answer s g a with
    | Except.ok s' => run_game s' rest
    | Except.error _ => run_game s rest

/-- The per-position score exactly as the specification words it (for comparison
with `score_pair`, claim C3): subtract 1 for a duplicate guess letter, a fixed
win of 5 for an exact match (overriding that position's duplicate penalty), 3
for present-elsewhere, 1 otherwise. -/
def spec_pos_score (a g : Word) (j : Nat) : Int :=
  if a.getD j nulChar = g.getD j nulChar then 5
  else (if g.getD j nulChar ∈ g.take j then -1 else 0)
    + (if g.getD j nulChar ∈ a then 3 else 1)

/-- The pairwise score as the specification words it: the sum of the
per-position scores over all positions of the guess. -/
def spec_pair_score (a g : Word) : Int :=
  ((List.range g.length).map (spec_pos_score a g)).sum

/-- Does the remaining guess suffix, whose first letter sits at position `idx`,
contain an exact position match against `answer`? -/
def hasGreen (answer : Word) : List Char → Nat → Bool
  | [], _ => false
  | letter :: rest, idx =>
    decide (answer.getD idx nulChar = letter) || hasGreen answer rest (idx + 1)

/-- Sum of the non-exact-match position contributions (duplicate penalty plus
present/absent bonus) over a guess suffix, threading the letters already seen. -/
def contribSum (answer : Word) : List Char → Nat → List Char → Int
  | [], _, _ => 0
  | letter :: rest, idx, letters =>
    ((if letter ∈ letters then (-1 : Int) else 0)
      + (if letter ∈ answer then 3 else 1))
    + contribSum answer rest (idx + 1) (letters ++ [letter])

/-- Value of the score loop on a suffix that still contains an exact match: the
last exact match resets the running score to 5 and only the contributions after
it remain. -/
def resetScore (answer : Word) : List Char → Nat → List Char → Int
  | [], _, _ => 0
  | letter :: rest, idx, letters =>
    if hasGreen answer rest (idx + 1) then
      resetScore answer rest (idx + 1) (letters ++ [letter])
    else if answer.getD idx nulChar = letter then
      5 + contribSum answer rest (idx + 1) (letters ++ [letter])
    else
      resetScore answer rest (idx + 1) (letters ++ [letter])

/-- Concrete words and answers used by the claims' concrete theorems. -/
def wAABBB : Word := ['a', 'a', 'b', 'b', 'b']

def gAAABB : Word := ['a', 'a', 'a', 'b', 'b']

def ansYYNYY : Answer :=
  ⟨[AnswerPart.correct, AnswerPart.correct, AnswerPart.incorrect,
    AnswerPart.correct, AnswerPart.correct]⟩

def wABCDE : Word := ['a', 'b', 'c', 'd', 'e']

def wEDCBA : Word := ['e', 'd', 'c', 'b', 'a']

def gZBZZZ : Word := ['z', 'b', 'z', 'z', 'z']

/-- Normal-mode solver with a two-word dictionary and a singleton pool. -/
def sC4 : Solver := ⟨[wABCDE, wEDCBA], [wABCDE], [], [], false⟩

/-- Hard-mode solver with the same dictionary and singleton pool. -/
def sC4h : Solver := ⟨[wABCDE, wEDCBA], [wABCDE], [], [], true⟩

def wAAAAA : Word := ['a', 'a', 'a', 'a', 'a']

def wBBBBB : Word := ['b', 'b', 'b', 'b', 'b']

def wCCCCC : Word := ['c', 'c', 'c', 'c', 'c']

def wDDDDD : Word := ['d', 'd', 'd', 'd', 'd']

def wEEEEE : Word := ['e', 'e', 'e', 'e', 'e']

def wFFFFF : Word := ['f', 'f', 'f', 'f', 'f']

def wGGGGG : Word := ['g', 'g', 'g', 'g', 'g']

/-- Seven-word dictionary for the exhausted-game scenario. -/
def dict7 : List Word := [wAAAAA, wBBBBB, wCCCCC, wDDDDD, wEEEEE, wFFFFF, wGGGGG]

/-- All-grey feedback. -/
def ansNNNNN : Answer :=
  ⟨[AnswerPart.incorrect, AnswerPart.incorrect, AnswerPart.incorrect,
    AnswerPart.incorrect, AnswerPart.incorrect]⟩

/-- All-green feedback. -/
def ansYYYYY : Answer :=
  ⟨[AnswerPart.correct, AnswerPart.correct, AnswerPart.correct,
    AnswerPart.correct, AnswerPart.correct]⟩

/-- Six recorded guesses exhausting the attempt budget. -/
def guesses6 : List Word := [wAAAAA, wBBBBB, wCCCCC, wDDDDD, wEEEEE, wFFFFF]

/-- Feedback for the six recorded guesses. -/
def answers6 : List Answer := [ansNNNNN, ansNNNNN, ansNNNNN, ansNNNNN, ansNNNNN, ansNNNNN]

/-- The session state reached by replaying `guesses6` with `answers6`. -/
def s6 : Solver := ⟨dict7, [wGGGGG], guesses6, answers6, false⟩

/-- The session state after a seventh guess is recorded on `s6`. -/
def s7 : Solver :=
  ⟨dict7, [], guesses6 ++ [wGGGGG], answers6 ++ [ansYYYYY], false⟩

/-- Padded feedback text, 7 characters long before normalisation. -/
def txtPadYYNIN : List Char := [' ', 'Y', 'Y', 'N', 'I', 'N', ' ']

/-- Python dict assignment `d[k] = v` on an association list: overwrite in
place, or append a new key at the end. -/
def dictPut (d : List (Char × Nat)) (k : Char) (v : Nat) : List (Char × Nat) :=
  match d with
  | [] => [(k, v)]
  | (k0, v0) :: rest => if k0 = k then (k0, v) :: rest else (k0, v0) :: dictPut rest k v

/-- Python `d.setdefault(k, v)` on an association list. -/
def dictSetdefault (d : List (Char × Nat)) (k : Char) (v : Nat) : List (Char × Nat) :=
  match d with
  | [] => [(k, v)]
  | (k0, v0) :: rest =>
    if k0 = k then (k0, v0) :: rest else (k0, v0) :: dictSetdefault rest k v

/-- Python `d[k] += 1` on an association list whose key is present. -/
def dictIncr (d : List (Char × Nat)) (k : Char) : List (Char × Nat) :=
  match d with
  | [] => []
  | (k0, v0) :: rest => if k0 = k then (k0, v0 + 1) :: rest else (k0, v0) :: dictIncr rest k

/-- The `yellow_letters` dictionary of the legacy `Solver.filter_words`
(`src/wordle_solver.py`): for each position judged yellow (`None`), record that
letter's position (a repeated yellow letter keeps only its last position). -/
def legacyYellow (guess : Word) : List (Option Bool) → Nat → List (Char × Nat) →
    List (Char × Nat)
  | [], _, d => d
  | r :: rs, idx, d =>
    legacyYellow guess rs (idx + 1)
      (if r = none then dictPut d (guess.getD idx nulChar) idx else d)

/-- The `grey_letters` dictionary of the legacy `Solver.filter_words`: every
guess letter gets an entry, counting its positions judged yellow (`None`) or
green (`True`). -/
def legacyGrey (guess : Word) : List (Option Bool) → Nat → List (Char × Nat) →
    List (Char × Nat)
  | [], _, d => d
  | r :: rs, idx, d =>
    let d := dictSetdefault d (guess.getD idx nulChar) 0
    let d := if r = none ∨ r = some true then dictIncr d (guess.getD idx nulChar) else d
    legacyGrey guess rs (idx + 1) d

/-- Green check of the legacy filter: a position judged `True` must match. -/
def legacyGreenOk (word guess : Word) : List (Option Bool) → Nat → Bool
  | [], _ => true
  | r :: rs, idx =>
    (if r = some true ∧ word.getD idx nulChar ≠ guess.getD idx nulChar then false
     else true)
    && legacyGreenOk word guess rs (idx + 1)

/-- Yellow check of the legacy filter: each yellow letter must be in the word
but not at its recorded position. -/
def legacyYellowOk (word : Word) (ylist : List (Char × Nat)) : Bool :=
  ylist.all (fun p => decide (p.1 ∈ word) && decide (word.getD p.2 nulChar ≠ p.1))

/-- Grey check of the legacy filter: a letter with zero yellow/green
occurrences must not be in the word ("grey letters must not be in word unless
offset by yellow letters"). -/
def legacyGreyOk (word : Word) (glist : List (Char × Nat)) : Bool :=
  glist.all (fun p => decide (¬ (p.2 = 0 ∧ p.1 ∈ word)))

/-- `Solver.filter_words` of the legacy script `src/wordle_solver.py`, with
results encoded as `True`/`False`/`None` exactly as there. -/
def legacy_filter_words (words : List Word) (guess : Word)
    (result : List (Option Bool)) : List Word :=
  words.filter (fun w =>
    decide (w ≠ guess)
    && legacyGreenOk w guess result 0
    && legacyYellowOk w (legacyYellow guess result 0 [])
    && legacyGreyOk w (legacyGrey guess result 0 []))

/-- Guess with one green `a`, one grey `a`, three grey `c`. -/
def gAACCC : Word := ['a', 'a', 'c', 'c', 'c']

/-- Legacy-format result for `gAACCC`: green, grey, grey, grey, grey. -/
def resultYNNNN : List (Option Bool) :=
  [some true, some false, some false, some false, some false]

/-! Theorems. -/

/-- C1: the claim states the Absent branch of the Candidate Filter applies the
duplicate-letter rule, so that with `k` Correct/Present occurrences of
`guess[i]` across the guess, `guess[i]` is disallowed in a candidate unless it
has at most `k` occurrences — and in particular a candidate with at most `k`
occurrences is retained. Both implementations diverge. Package
`solver.py`: at guess `aaabb` with feedback `YYNYY`, position 2 is Absent,
`k = 2` for the letter `a`, and the candidate `aabbb` contains exactly 2
occurrences of `a` (meeting every Correct constraint), yet `filter_words`
removes it — its Absent branch rejects any word containing the letter, with no
duplicate-letter rule at all. Legacy `wordle_solver.py`: at guess `aaccc` with
result green-grey-grey-grey-grey, `k = 1` for `a`, and the candidate `aaaaa`
has 5 > k occurrences of `a`, so the rule disallows it, yet
`legacy_filter_words` retains it — when `k > 0` the legacy grey check imposes
no bound at all. -/
theorem C1_filter_absent_eval :
    (gAAABB.zip ansYYNYY.parts).getD 2 (nulChar, AnswerPart.correct) =
      ('a', AnswerPart.incorrect)
    ∧ ((gAAABB.zip ansYYNYY.parts).filter
        (fun q => decide (q.1 = 'a') && decide (q.2 ≠ AnswerPart.incorrect))).length = 2
    ∧ wAABBB.count 'a' = 2
    ∧ filter_words [wAABBB] gAAABB ansYYNYY = []
    ∧ (gAACCC.zip resultYNNNN).getD 1 (nulChar, none) = ('a', some false)
    ∧ ((gAACCC.zip resultYNNNN).filter
        (fun q => decide (q.1 = 'a') && decide (q.2 ≠ some false))).length = 1
    ∧ wAAAAA.count 'a' = 5
    ∧ legacy_filter_words [wAAAAA] gAACCC resultYNNNN = [wAAAAA] :=
  ⟨rfl, by decide, by decide, rfl, rfl, by decide, by decide, rfl⟩

/-- C2: soundness fails on the code. The feedback of guess `aaabb` against the
hidden answer `aabbb` under the reference Wordle judgement is `YYNYY`, yet
filtering a pool containing the hidden answer with that very feedback removes
the answer (the Absent branch rejects every word containing the letter `a`). -/
theorem C2_true_answer_removed :
    wordleParts wAABBB gAAABB = ansYYNYY.parts
    ∧ filter_words [wAABBB] gAAABB ⟨wordleParts wAABBB gAAABB⟩ = [] :=
  ⟨rfl, rfl⟩

/-- C3 counterexample: the pairwise score is not the sum of the claim's
per-position scores. For answer `abcde` and guess `zbzzz` the position-wise sum
is 6 (baseline 1, exact-match 5, then three positions scoring 0 each), but the
code's running score is reset to 5 by the exact match at position 1 and ends at
5. -/
theorem C3_pairscore_not_positionwise_sum :
    score_pair wABCDE gZBZZZ = 5
    ∧ spec_pair_score wABCDE gZBZZZ = 6
    ∧ score_pair wABCDE gZBZZZ ≠ spec_pair_score wABCDE gZBZZZ :=
  ⟨rfl, by decide, by decide⟩

/-- C4 counterexample: in normal mode with the two-word dictionary
`[abcde, edcba]` and the singleton pool `[abcde]`, `next_word` returns `edcba`
(pairwise score 11 against the lone candidate, versus 5 for the candidate
itself, whose exact matches keep resetting its score to 5), not the single
remaining candidate. -/
theorem C4_normal_mode_not_candidate :
    sC4.words = [wABCDE]
    ∧ sC4.hard_mode = false
    ∧ next_word sC4 = wEDCBA
    ∧ wEDCBA ≠ wABCDE :=
  ⟨rfl, rfl, rfl, by decide⟩

/-- C5 counterexample: a session reaching the terminal state (6 recorded
guesses, `is_complete` true) still accepts a seventh valid guess —
`add_answer` performs no completion check — and the guess record grows to
length 7. The state `s6` is reachable: it is exactly what `initSolver` builds
from the six-guess history. -/
theorem C5_seventh_guess_accepted :
    initSolver dict7 guesses6 answers6 false = Except.ok s6
    ∧ is_complete s6 = true
    ∧ add_answer s6 wGGGGG ansYYYYY = Except.ok s7
    ∧ s7.guesses.length = 7 :=
  ⟨rfl, rfl, rfl, rfl⟩

/-- C9 counterexample: the claim says parsing fails with `InvalidLength` on
every text whose length is not 5, but `Answer.from_string` normalises first
(`upper` then `strip`), so the 7-character text `" YYNIN "` parses
successfully. -/
theorem C9_normalization_counterexample :
    txtPadYYNIN.length = 7
    ∧ Answer.from_string txtPadYYNIN =
        Except.ok ⟨[AnswerPart.correct, AnswerPart.correct, AnswerPart.incorrect,
          AnswerPart.inWord, AnswerPart.incorrect]⟩ :=
  ⟨rfl, rfl⟩

/-- A successful `add_answer` appends the guess and the answer and replaces the
pool by the filtered pool. -/
theorem add_answer_ok_eq (s : Solver) (g : Word) (a : Answer) (s' : Solver)
    (h : add_answer s g a = Except.ok s') :
    s' = { s with
           guesses := s.guesses ++ [g]
           answers := s.answers ++ [a]
           words := filter_words s.words g a } := by
  unfold add_answer at h
  split at h
  · cases h
  · split at h
    · cases h
    · cases h
      rfl

/-- Unfolding of the `valid_guess` checks. -/
theorem valid_guess_iff (s : Solver) (g : Word) :
    valid_guess s g = true ↔
      (g ∉ s.guesses ∧ ((s.hard_mode = true ∧ g ∈ s.words)
        ∨ (s.hard_mode = false ∧ g ∈ s.allWords))) := by
  unfold valid_guess
  by_cases h1 : g ∈ s.guesses
  · simp [h1]
  · by_cases h2 : s.hard_mode
    · simp [h1, h2]
    · simp [h1, h2]

/-- C5 (amended): `add_answer` performs no completion check. Even in a terminal
state (`is_complete` true), a guess passing the length and validity checks is
accepted and the guess record grows by one, so the record can exceed length 6.
Completion is only consulted by the interactive loop, which stops calling
`add_answer`. -/
theorem C5_no_completion_check (s : Solver) (g : Word) (a : Answer)
    (_hterm : is_complete s = true) (hlen : g.length = 5)
    (hvalid : valid_guess s g = true) :
    ∃ s', add_answer s g a = Except.ok s'
      ∧ s'.guesses.length = s.guesses.length + 1 := by
  refine ⟨{ s with
            guesses := s.guesses ++ [g]
            answers := s.answers ++ [a]
            words := filter_words s.words g a }, ?_, by simp⟩
  unfold add_answer
  rw [if_neg (by simp [hlen]), if_neg (by simp [hvalid])]

/-- C5 witness: the theorem applied to the concrete exhausted session `s6`. -/
theorem C5_no_completion_check_witness :
    ∃ s', add_answer s6 wGGGGG ansYYYYY = Except.ok s'
      ∧ s'.guesses.length = s6.guesses.length + 1 :=
  C5_no_completion_check s6 wGGGGG ansYYYYY (by decide) (by decide) (by decide)

/-- C6: `add_answer` succeeds exactly when the guess is 5 letters, not a repeat,
in the full dictionary, and (in hard mode) in the live pool; the wrong-length
error fires exactly on non-5-letter guesses, and every other failure surfaces
as the single invalid-word error (the code folds the duplicate, dictionary and
hard-mode conditions into one `valid_guess` check). The pool-inside-dictionary
hypothesis holds for every reachable session (claim C8). -/
theorem C6_add_answer_validity (s : Solver) (g : Word) (a : Answer)
    (hsub : ∀ w ∈ s.words, w ∈ s.allWords) :
    ((add_answer s g a).isOk = true ↔
      (g.length = 5 ∧ g ∉ s.guesses ∧ g ∈ s.allWords
        ∧ (s.hard_mode = true → g ∈ s.words)))
    ∧ (add_answer s g a = Except.error SolverError.wrongLength ↔ g.length ≠ 5)
    ∧ (add_answer s g a = Except.error SolverError.invalidWord ↔
        (g.length = 5 ∧ valid_guess s g = false)) := by
  unfold add_answer
  by_cases hlen : g.length = 5
  · by_cases hv : valid_guess s g = true
    · rw [if_neg (by simp [hlen]), if_neg (by simp [hv])]
      refine ⟨⟨fun _ => ?_, fun _ => rfl⟩,
        ⟨fun h => Except.noConfusion h, fun h => absurd hlen h⟩,
        ⟨fun h => Except.noConfusion h, fun hp => by simp [hv] at hp⟩⟩
      rcases (valid_guess_iff s g).mp hv with ⟨hng, hmode⟩
      rcases hmode with ⟨hh, hw⟩ | ⟨hh, hw⟩
      · exact ⟨hlen, hng, hsub g hw, fun _ => hw⟩
      · exact ⟨hlen, hng, hw, fun hc => by rw [hh] at hc; cases hc⟩
    · rw [if_neg (by simp [hlen]), if_pos (by simp [hv])]
      refine ⟨⟨fun h => Bool.noConfusion h, fun hp => ?_⟩,
        ⟨fun h => by simp at h, fun h => absurd hlen h⟩,
        ⟨fun _ => ⟨hlen, by simpa using hv⟩, fun _ => rfl⟩⟩
      rcases hp with ⟨-, hng, hd, hhm⟩
      refine absurd ((valid_guess_iff s g).mpr ⟨hng, ?_⟩) hv
      cases hmode : s.hard_mode
      · exact Or.inr ⟨rfl, hd⟩
      · exact Or.inl ⟨rfl, hhm hmode⟩
  · rw [if_pos (by simp [hlen])]
    exact ⟨⟨fun h => Bool.noConfusion h, fun hp => absurd hp.1 hlen⟩,
      ⟨fun _ => hlen, fun _ => rfl⟩,
      ⟨fun h => by simp at h, fun hp => absurd hp.1 hlen⟩⟩

/-- C6 witness: the characterisation applied to the session `sC4` and the
in-dictionary guess `edcba`. -/
theorem C6_add_answer_validity_witness :
    ((add_answer sC4 wEDCBA ansNNNNN).isOk = true ↔
      (wEDCBA.length = 5 ∧ wEDCBA ∉ sC4.guesses ∧ wEDCBA ∈ sC4.allWords
        ∧ (sC4.hard_mode = true → wEDCBA ∈ sC4.words)))
    ∧ (add_answer sC4 wEDCBA ansNNNNN = Except.error SolverError.wrongLength ↔
        wEDCBA.length ≠ 5)
    ∧ (add_answer sC4 wEDCBA ansNNNNN = Except.error SolverError.invalidWord ↔
        (wEDCBA.length = 5 ∧ valid_guess sC4 wEDCBA = false)) :=
  C6_add_answer_validity sC4 wEDCBA ansNNNNN (by decide)

/-- C7: atomicity of `record`. All validation failures of `add_answer` are
raised before any field is mutated, so a failing call leaves the session state
(guess record, answer record, and pool) exactly as it was. -/
theorem C7_atomic_failure (s : Solver) (g : Word) (a : Answer) (e : SolverError)
    (h : (add_answer_run s g a).2 = some e) :
    (add_answer_run s g a).1 = s := by
  unfold add_answer_run at h ⊢
  by_cases h1 : g.length ≠ 5
  · rw [if_pos h1]
  · rw [if_neg h1] at h ⊢
    by_cases h2 : ¬ valid_guess s g = true
    · rw [if_pos h2]
    · rw [if_neg h2] at h
      cases h

/-- C7 witness: a failing call (wrong guess length) on the concrete session
`sC4` leaves the state unchanged. -/
theorem C7_atomic_failure_witness :
    (add_answer_run sC4 ['a'] ansNNNNN).1 = sC4 :=
  C7_atomic_failure sC4 ['a'] ansNNNNN SolverError.wrongLength (by decide)

/-- C8: the Candidate Filter returns a subsequence of its input pool, so the
pool's size never increases; consequently any sequence of record operations
keeps the pool inside the original dictionary (which `run_game` never
changes) and never grows it. -/
theorem C8_monotonic_subset :
    (∀ (pool : List Word) (g : Word) (a : Answer),
        (filter_words pool g a).Sublist pool
        ∧ (filter_words pool g a).length ≤ pool.length)
    ∧ (∀ (s : Solver) (steps : List (Word × Answer)),
        (run_game s steps).words.length ≤ s.words.length
        ∧ (run_game s steps).allWords = s.allWords
        ∧ ((∀ w ∈ s.words, w ∈ s.allWords) →
            ∀ w ∈ (run_game s steps).words, w ∈ s.allWords)) := by
  have hfil : ∀ (pool : List Word) (g : Word) (a : Answer),
      (filter_words pool g a).Sublist pool :=
    fun pool _ _ => List.filter_sublist pool
  refine ⟨fun pool g a => ⟨hfil pool g a, (hfil pool g a).length_le⟩, ?_⟩
  intro s steps
  induction steps generalizing s with
  | nil => exact ⟨le_refl _, rfl, fun h => h⟩
  | cons p rest ih =>
    obtain ⟨g, a⟩ := p
    cases h : add_answer s g a with
    | ok s' =>
      have hs' := add_answer_ok_eq s g a s' h
      have hrec := ih s'
      have hw : s'.words.Sublist s.words := by
        rw [hs']
        exact hfil s.words g a
      have hall : s'.allWords = s.allWords := by
        rw [hs']
      refine ⟨?_, ?_, ?_⟩
      · show (run_game s ((g, a) :: rest)).words.length ≤ s.words.length
        rw [run_game, h]
        exact le_trans hrec.1 hw.length_le
      · show (run_game s ((g, a) :: rest)).allWords = s.allWords
        rw [run_game, h, hrec.2.1, hall]
      · intro hsub w hwmem
        rw [run_game, h] at hwmem
        have hsub' : ∀ w ∈ s'.words, w ∈ s'.allWords := by
          intro w' hw'
          rw [hall]
          exact hsub w' (hw.subset hw')
        have := hrec.2.2 hsub' w hwmem
        rw [hall] at this
        exact this
    | error e =>
      have hrec := ih s
      refine ⟨?_, ?_, ?_⟩
      · show (run_game s ((g, a) :: rest)).words.length ≤ s.words.length
        rw [run_game, h]
        exact hrec.1
      · show (run_game s ((g, a) :: rest)).allWords = s.allWords
        rw [run_game, h]
        exact hrec.2.1
      · intro hsub w hwmem
        rw [run_game, h] at hwmem
        exact hrec.2.2 hsub w hwmem

/-- C8 witness: the monotonic-shrink and dictionary-containment facts applied to
the concrete session `sC4` and a two-step record sequence. -/
theorem C8_monotonic_subset_witness :
    (filter_words [wAABBB] gAAABB ansYYNYY).Sublist [wAABBB]
    ∧ (run_game sC4 [(wEDCBA, ansNNNNN), (wABCDE, ansNNNNN)]).words.length ≤
        sC4.words.length
    ∧ ∀ w ∈ (run_game sC4 [(wEDCBA, ansNNNNN), (wABCDE, ansNNNNN)]).words,
        w ∈ sC4.allWords :=
  ⟨(C8_monotonic_subset.1 [wAABBB] gAAABB ansYYNYY).1,
    (C8_monotonic_subset.2 sC4 [(wEDCBA, ansNNNNN), (wABCDE, ansNNNNN)]).1,
    (C8_monotonic_subset.2 sC4 [(wEDCBA, ansNNNNN), (wABCDE, ansNNNNN)]).2.2 (by decide)⟩

/-- C4 (amended): in hard mode a singleton pool makes `next_word` return the
single candidate — the guess space then is the pool itself, so the score table
has exactly one entry. In normal mode the guess space is the full dictionary
and `next_word` can prefer a different word (see the counterexample). -/
theorem C4_hard_mode_singleton (s : Solver) (w : Word)
    (hh : s.hard_mode = true) (hw : s.words = [w]) :
    next_word s = w := by
  obtain ⟨allW, ws, gs, ans, hm⟩ := s
  simp only at hh hw
  subst hh
  subst hw
  simp [next_word, score_words, sortDesc, insertDesc, dictAdd]

/-- C4 witness: the hard-mode fallback on the concrete solver `sC4h`. -/
theorem C4_hard_mode_singleton_witness : next_word sC4h = wABCDE :=
  C4_hard_mode_singleton sC4h wABCDE rfl rfl

/-- Unfolding of `Answer.from_string` into its normalised-input case split. -/
theorem from_string_eq (input : List Char) :
    Answer.from_string input =
      (if (pyStrip (pyUpper input)).length ≠ 5 then
        Except.error ParseError.invalidLength
      else
        match partsFromChars (pyStrip (pyUpper input)) with
        | Except.ok parts => Except.ok ⟨parts⟩
        | Except.error e => Except.error e) := rfl

/-- The symbol loop succeeds exactly when every character is in the three-symbol
alphabet. -/
theorem partsFromChars_ok_iff (l : List Char) :
    (partsFromChars l).isOk = true ↔ ∀ c ∈ l, (symbolToPart c).isSome = true := by
  induction l with
  | nil => simp [partsFromChars, Except.isOk, Except.toBool]
  | cons c cs ih =>
    cases hc : symbolToPart c with
    | some p =>
      cases hr : partsFromChars cs with
      | ok ps =>
        have h1 : partsFromChars (c :: cs) = Except.ok (p :: ps) := by
          rw [partsFromChars, hc, hr]
        rw [h1]
        simp only [List.mem_cons]
        constructor
        · intro _ c' hmem
          rcases hmem with rfl | hmem
          · rw [hc]
            rfl
          · exact (ih.mp (by rw [hr]; rfl)) c' hmem
        · intro _
          rfl
      | error e =>
        have h1 : partsFromChars (c :: cs) = Except.error e := by
          rw [partsFromChars, hc, hr]
        rw [h1]
        simp only [List.mem_cons]
        constructor
        · intro h
          cases h
        · intro hall
          have : (partsFromChars cs).isOk = true :=
            ih.mpr (fun c' hmem => hall c' (Or.inr hmem))
          rw [hr] at this
          cases this
    | none =>
      have h1 : partsFromChars (c :: cs) = Except.error (ParseError.invalidSymbol c) := by
        rw [partsFromChars, hc]
      rw [h1]
      simp only [List.mem_cons]
      constructor
      · intro h
        cases h
      · intro hall
        have := hall c (Or.inl rfl)
        rw [hc] at this
        cases this

/-- Every error of the symbol loop is an invalid-symbol error naming an
offending character of the input. -/
theorem partsFromChars_error_symbol (l : List Char) (e : ParseError)
    (h : partsFromChars l = Except.error e) :
    ∃ c ∈ l, e = ParseError.invalidSymbol c ∧ symbolToPart c = none := by
  induction l with
  | nil =>
    rw [partsFromChars] at h
    cases h
  | cons c cs ih =>
    rw [partsFromChars] at h
    cases hc : symbolToPart c with
    | some p =>
      rw [hc] at h
      cases hr : partsFromChars cs with
      | ok ps =>
        rw [hr] at h
        cases h
      | error e' =>
        rw [hr] at h
        cases h
        obtain ⟨c', hmem, he, hnone⟩ := ih hr
        exact ⟨c', List.mem_cons_of_mem c hmem, he, hnone⟩
    | none =>
      rw [hc] at h
      cases h
      exact ⟨c, List.mem_cons_self c cs, rfl, hc⟩

/-- C9 (amended): `Answer.from_string` first normalises its input with
`upper().strip()`, then succeeds exactly when the normalised text has length 5
and every character is one of the three judgement symbols; the length error
fires exactly when the normalised length is not 5, and the invalid-symbol
error exactly when the normalised text has length 5 but a character outside
the alphabet. The claim's three examples (`YYNIN` parses, `YYNI` fails with
the length error, `YYNIX` fails with the symbol error) all follow, but texts
that only normalise to a valid form — for example `" YYNIN "` — also parse. -/
theorem C9_parse_characterization (input : List Char) :
    ((Answer.from_string input).isOk = true ↔
      ((pyStrip (pyUpper input)).length = 5
        ∧ ∀ c ∈ pyStrip (pyUpper input), (symbolToPart c).isSome = true))
    ∧ (Answer.from_string input = Except.error ParseError.invalidLength ↔
        (pyStrip (pyUpper input)).length ≠ 5)
    ∧ ((∃ c, Answer.from_string input = Except.error (ParseError.invalidSymbol c)) ↔
        ((pyStrip (pyUpper input)).length = 5
          ∧ ∃ c ∈ pyStrip (pyUpper input), symbolToPart c = none)) := by
  by_cases hlen : (pyStrip (pyUpper input)).length = 5
  · cases hp : partsFromChars (pyStrip (pyUpper input)) with
    | ok ps =>
      have hfs : Answer.from_string input = Except.ok ⟨ps⟩ := by
        rw [from_string_eq, if_neg (by simp [hlen]), hp]
      rw [hfs]
      refine ⟨⟨fun _ => ⟨hlen, (partsFromChars_ok_iff _).mp (by rw [hp]; rfl)⟩,
          fun _ => rfl⟩,
        ⟨fun h => Except.noConfusion h, fun h => absurd hlen h⟩, ?_⟩
      constructor
      · rintro ⟨c, hc⟩
        cases hc
      · rintro ⟨-, c, hcmem, hcnone⟩
        have := (partsFromChars_ok_iff _).mp (by rw [hp]; rfl) c hcmem
        rw [hcnone] at this
        cases this
    | error e =>
      obtain ⟨c0, hc0mem, rfl, hc0none⟩ := partsFromChars_error_symbol _ e hp
      have hfs : Answer.from_string input =
          Except.error (ParseError.invalidSymbol c0) := by
        rw [from_string_eq, if_neg (by simp [hlen]), hp]
      rw [hfs]
      refine ⟨⟨fun h => Bool.noConfusion h, fun hpair => ?_⟩,
        ⟨fun h => by simp at h, fun h => absurd hlen h⟩,
        ⟨fun _ => ⟨hlen, c0, hc0mem, hc0none⟩, fun _ => ⟨c0, rfl⟩⟩⟩
      have := hpair.2 c0 hc0mem
      rw [hc0none] at this
      cases this
  · have hfs : Answer.from_string input = Except.error ParseError.invalidLength := by
      rw [from_string_eq, if_pos (by simp [hlen])]
    rw [hfs]
    refine ⟨⟨fun h => Bool.noConfusion h, fun hpair => absurd hpair.1 hlen⟩,
      ⟨fun _ => hlen, fun _ => rfl⟩, ?_⟩
    constructor
    · rintro ⟨c, hc⟩
      simp at hc
    · rintro ⟨h5, -⟩
      exact absurd h5 hlen

/-- Replaying a history fails exactly when some pair, replayed in order after
all pairs before it succeeded, is rejected by `add_answer` at that point. -/
theorem replay_not_ok_iff (l : List (Word × Answer)) (s : Solver) :
    (replay s l).isOk = false ↔
      ∃ i, i < l.length ∧ ∃ s',
        replay s (l.take i) = Except.ok s'
        ∧ (add_answer s' (l.getD i ([], ⟨[]⟩)).1
            (l.getD i ([], ⟨[]⟩)).2).isOk = false := by
  induction l generalizing s with
  | nil =>
    constructor
    · intro h
      cases h
    · rintro ⟨i, hi, -⟩
      cases hi
  | cons p rest ih =>
    obtain ⟨g, a⟩ := p
    cases h : add_answer s g a with
    | ok s1 =>
      have hstep : replay s ((g, a) :: rest) = replay s1 rest := by
        rw [replay, h]
      rw [hstep, ih s1]
      constructor
      · rintro ⟨i, hi, s', hrep, hfail⟩
        refine ⟨i + 1, Nat.succ_lt_succ hi, s', ?_, ?_⟩
        · rw [List.take_succ_cons, replay, h]
          exact hrep
        · rw [List.getD_cons_succ]
          exact hfail
      · rintro ⟨i, hi, s', hrep, hfail⟩
        cases i with
        | zero =>
          rw [List.take_zero, replay] at hrep
          cases hrep
          rw [List.getD_cons_zero, h] at hfail
          cases hfail
        | succ j =>
          rw [List.take_succ_cons, replay, h] at hrep
          rw [List.getD_cons_succ] at hfail
          exact ⟨j, Nat.lt_of_succ_lt_succ hi, s', hrep, hfail⟩
    | error e =>
      have hstep : replay s ((g, a) :: rest) = Except.error e := by
        rw [replay, h]
      rw [hstep]
      constructor
      · intro _
        refine ⟨0, Nat.succ_pos _, s, ?_, ?_⟩
        · rw [List.take_zero, replay]
        · rw [List.getD_cons_zero, h]
          rfl
      · intro _
        rfl

/-- C10: constructing a session from resumption input fails with the dedicated
count-mismatch error when the list lengths differ (the length test precedes
the replay loop, so no pair is replayed); with equal lengths every
historical pair is replayed through `add_answer` in order, and construction
fails exactly when some pair was invalid at its point in the sequence. -/
theorem C10_init_replay (allW : List Word) (gs : List Word)
    (ans : List Answer) (hm : Bool) :
    (ans.length ≠ gs.length →
      initSolver allW gs ans hm = Except.error SolverError.countMismatch)
    ∧ (ans.length = gs.length →
        ((initSolver allW gs ans hm).isOk = false ↔
          ∃ i, i < (gs.zip ans).length ∧ ∃ s',
            replay ⟨allW, allW, [], [], hm⟩ ((gs.zip ans).take i) = Except.ok s'
            ∧ (add_answer s' ((gs.zip ans).getD i ([], ⟨[]⟩)).1
                ((gs.zip ans).getD i ([], ⟨[]⟩)).2).isOk = false)) := by
  constructor
  · intro hne
    rw [initSolver, if_pos hne]
  · intro heq
    rw [initSolver, if_neg (by simp [heq])]
    exact replay_not_ok_iff _ _

/-- C10 witness: one guess with no matching answer is rejected with the
count-mismatch error. -/
theorem C10_init_replay_witness :
    initSolver dict7 [wAAAAA] [] false = Except.error SolverError.countMismatch :=
  (C10_init_replay dict7 [wAAAAA] [] false).1 (by decide)

/-- The score loop in closed form: if the remaining suffix still contains an
exact position match, the accumulated score is discarded — the last exact match
resets the score to 5 and only later contributions count; otherwise every
remaining position contributes its duplicate penalty plus its present/absent
bonus on top of the accumulated score. -/
theorem scoreLoop_reset_char (answer : Word) (rest : List Char) :
    ∀ (idx : Nat) (letters : List Char) (score : Int),
      scoreLoop answer rest idx letters score =
        if hasGreen answer rest idx then resetScore answer rest idx letters
        else score + contribSum answer rest idx letters := by
  induction rest with
  | nil =>
    intro idx letters score
    simp [scoreLoop, hasGreen, contribSum]
  | cons letter rs ih =>
    intro idx letters score
    simp only [scoreLoop]
    rw [ih]
    simp only [hasGreen, resetScore, contribSum]
    by_cases hg : hasGreen answer rs (idx + 1) = true <;>
      by_cases hx : answer.getD idx nulChar = letter <;>
        by_cases hdup : letter ∈ letters <;>
          by_cases hmem : letter ∈ answer <;>
            simp [hg, hx, hdup, hmem] <;>
              rw [List.getD_eq_getElem?_getD] at hx <;>
                simp [hx] <;>
                  ring

/-- Adding to a key returns the key's previous value (0 when absent) plus the
increment. -/
theorem dictGet_dictAdd_self (d : List (Word × Int)) (k : Word) (v : Int) :
    dictGet (dictAdd d k v) k = some ((dictGet d k).getD 0 + v) := by
  induction d with
  | nil => simp [dictAdd, dictGet]
  | cons kv rest ih =>
    obtain ⟨k', v'⟩ := kv
    by_cases h : k' = k
    · subst h
      simp [dictAdd, dictGet]
    · simp [dictAdd, dictGet, h, ih]

/-- Adding to one key leaves every other key's value unchanged. -/
theorem dictGet_dictAdd_ne (d : List (Word × Int)) (k : Word) (v : Int)
    (k' : Word) (h : k ≠ k') :
    dictGet (dictAdd d k v) k' = dictGet d k' := by
  induction d with
  | nil => simp [dictAdd, dictGet, h]
  | cons kv rest ih =>
    obtain ⟨k0, v0⟩ := kv
    by_cases h0 : k0 = k
    · subst h0
      simp [dictAdd, dictGet, h]
    · by_cases h1 : k0 = k'
      · subst h1
        simp [dictAdd, dictGet, h0]
      · simp [dictAdd, dictGet, h0, h1, ih]

/-- Folding `dictAdd` over keys not containing `g` leaves `g`'s entry alone. -/
theorem foldl_dictAdd_not_mem (l : List Word) (f : Word → Int) (g : Word) :
    ∀ d : List (Word × Int), g ∉ l →
      dictGet (l.foldl (fun d gu => dictAdd d gu (f gu)) d) g = dictGet d g := by
  induction l with
  | nil =>
    intro d _
    rfl
  | cons k rest ih =>
    intro d hg
    simp only [List.foldl_cons]
    have hk : k ≠ g := fun he => hg (he ▸ List.mem_cons_self k rest)
    rw [ih _ (fun hm => hg (List.mem_cons_of_mem _ hm)), dictGet_dictAdd_ne _ _ _ _ hk]

/-- Folding `dictAdd` over a duplicate-free key list containing `g` adds `f g`
to `g`'s entry exactly once. -/
theorem foldl_dictAdd_mem (l : List Word) (f : Word → Int) (g : Word) :
    ∀ d : List (Word × Int), l.Nodup → g ∈ l →
      dictGet (l.foldl (fun d gu => dictAdd d gu (f gu)) d) g =
        some ((dictGet d g).getD 0 + f g) := by
  induction l with
  | nil =>
    intro d _ hg
    cases hg
  | cons k rest ih =>
    intro d hnd hg
    simp only [List.foldl_cons]
    rcases List.mem_cons.mp hg with rfl | hmem
    · have hnot : g ∉ rest := (List.nodup_cons.mp hnd).1
      rw [foldl_dictAdd_not_mem rest f g _ hnot, dictGet_dictAdd_self]
    · have hk : k ≠ g := by
        rintro rfl
        exact (List.nodup_cons.mp hnd).1 hmem
      rw [ih _ (List.nodup_cons.mp hnd).2 hmem, dictGet_dictAdd_ne _ _ _ _ hk]

/-- The outer loop of `_score_words` accumulates, for a guess `g` already in
the table with value `x`, the sum of the pairwise scores of `g` against every
remaining answer. -/
theorem outer_fold_get (guessSpace : List Word) (g : Word)
    (hnd : guessSpace.Nodup) (hg : g ∈ guessSpace) :
    ∀ (answersL : List Word) (d : List (Word × Int)) (x : Int),
      dictGet d g = some x →
      dictGet (answersL.foldl
          (fun d a => guessSpace.foldl
            (fun d gu => dictAdd d gu (score_pair a gu)) d) d) g =
        some (x + (answersL.map (fun a => score_pair a g)).sum) := by
  intro answersL
  induction answersL with
  | nil =>
    intro d x hx
    simpa using hx
  | cons a rest ih =>
    intro d x hx
    simp only [List.foldl_cons, List.map_cons, List.sum_cons]
    have h1 : dictGet (guessSpace.foldl
        (fun d gu => dictAdd d gu (score_pair a gu)) d) g = some (x + score_pair a g) := by
      rw [foldl_dictAdd_mem guessSpace (fun gu => score_pair a gu) g d hnd hg, hx]
      rfl
    rw [ih _ _ h1, add_assoc]

/-- C3 (amended): the total score of a guess `g` is the sum over every
candidate answer `a` in the pool of the pairwise score of `(a, g)` — but the
pairwise score is not a sum of independent per-position scores: an exact
position match resets the running score to 5 (discarding all earlier
contributions), and only when the pair has no exact match does the score equal
the plain sum of the duplicate penalties and present/absent bonuses. -/
theorem C3_score_characterization (s : Solver) (g : Word)
    (hnd : (if s.hard_mode then s.words else s.allWords).Nodup)
    (hg : g ∈ (if s.hard_mode then s.words else s.allWords))
    (hne : s.words ≠ []) :
    dictGet (score_words s) g = some ((s.words.map (fun a => score_pair a g)).sum)
    ∧ ∀ (a g' : Word),
        score_pair a g' =
          if hasGreen a g' 0 then resetScore a g' 0 []
          else contribSum a g' 0 [] := by
  constructor
  · simp only [score_words]
    set G := if s.hard_mode then s.words else s.allWords with hG
    obtain ⟨a0, rest, hw⟩ : ∃ a0 rest, s.words = a0 :: rest := by
      cases hwc : s.words with
      | nil => exact absurd hwc hne
      | cons a0 rest => exact ⟨a0, rest, rfl⟩
    rw [hw]
    simp only [List.foldl_cons, List.map_cons, List.sum_cons]
    have h1 : dictGet (G.foldl
        (fun d gu => dictAdd d gu (score_pair a0 gu)) []) g =
        some (0 + score_pair a0 g) := by
      rw [foldl_dictAdd_mem G (fun gu => score_pair a0 gu) g [] hnd hg]
      rfl
    rw [outer_fold_get G g hnd hg rest _ _ h1, zero_add]
  · intro a g'
    by_cases h : hasGreen a g' 0 = true
    · rw [score_pair, scoreLoop_reset_char, if_pos h, if_pos h]
    · rw [score_pair, scoreLoop_reset_char, if_neg h, if_neg h, zero_add]

/-- C3 witness: the characterisation on the hard-mode solver `sC4h`, whose
guess space is its singleton pool. -/
theorem C3_score_characterization_witness :
    dictGet (score_words sC4h) wABCDE =
      some ((sC4h.words.map (fun a => score_pair a wABCDE)).sum)
    ∧ ∀ (a g' : Word),
        score_pair a g' =
          if hasGreen a g' 0 then resetScore a g' 0 []
          else contribSum a g' 0 [] :=
  C3_score_characterization sC4h wABCDE (by decide) (by decide) (by decide)
